import Mathlib

/-!
Verification of the session/event concurrency core of the codesandbox-sdk
client library: the `runCommandAsUser` execution state machine, the
`Emitter`/`AsyncEmitter` publish/subscribe primitives, the `ShellInstance`
display ring buffer, and the `Ports` delta computation.

Each definition is a shallow embedding of the corresponding source function;
stateful code is modelled by explicit state passing over the notification
events delivered by the protocol collaborator.
-/

namespace CsbSdk

/-- Shell status values (`ShellStatus` in src/setup.ts). -/
inductive ShellStatus
  | RUNNING
  | FINISHED
  | ERROR
  | KILLED
  | RESTARTING
deriving DecidableEq, Repr

/-- The session descriptor returned by `pitcher.clients.shell.create`
(`OpenShellDTO`): id, initial status, exit code if already finished, and any
already-buffered output. Session ids are modelled as naturals. -/
structure OpenShellDTO where
  shellId : Nat
  status : ShellStatus
  exitCode : Option Int
  buffer : List String
deriving DecidableEq, Repr

/-- Modelled from the spec: the `Barrier` single-resolution gate from
`@codesandbox/pitcher-common` (its source is not part of this repository).
State is one of pending, opened(value) or disposed (spec section 4.4). -/
inductive BarrierState (α : Type)
  | pending
  | opened (value : α)
  | disposed
deriving DecidableEq, Repr

/-- Modelled from the spec: `Barrier.open` resolves the gate exactly once;
subsequent opens are ignored (spec section 4.4). -/
def barrierOpen {α : Type} (b : BarrierState α) (v : α) : BarrierState α :=
  match b with
  | BarrierState.pending => BarrierState.opened v
  | s => s

/-- Externally visible effects performed by the command-execution code,
recorded as a trace so that theorems can speak about which remote requests
and subscriptions were made. -/
inductive Effect
  | createSession
  | renameSession (name : String)
  | subOutput
  | subExited
  | subTerminated
  | remoteDelete
  | closeShell
deriving DecidableEq, Repr

/-- The mutable state of one pending `runCommandAsUser` execution after the
remote session was created with a non-FINISHED status: the session id the
three listeners filter on, the combined-output accumulator (`combinedOut`),
the termination gate, and whether the `DisposableStore` holding the three
subscriptions is still live (true until `kill()` or settlement disposes it). -/
structure RunState where
  shellId : Nat
  combinedOut : String
  barrier : BarrierState (Option Int)
  subsActive : Bool
deriving DecidableEq, Repr

/-- One remote shell notification, as delivered by the protocol collaborator
(`onShellOut`, `onShellExited`, `onShellTerminated`). -/
inductive ShellNotif
  | output (shellId : Nat) (chunk : String)
  | exited (shellId : Nat) (exitCode : Int)
  | terminated (shellId : Nat)
deriving DecidableEq, Repr

/-- The effect of delivering one notification to the three listeners
registered by `runCommandAsUser` (src/setup.ts lines 400-429). Each listener
first checks the session id; the output listener appends the chunk to the
accumulator, the exited listener opens the gate with the exit code, the
terminated listener opens the gate with no exit code. When the subscriptions
have been disposed the listeners are gone and the notification is ignored. -/
def stepNotif (s : RunState) (n : ShellNotif) : RunState :=
  if s.subsActive then
    match n with
    | ShellNotif.output id chunk =>
        if id = s.shellId then { s with combinedOut := s.combinedOut ++ chunk } else s
    | ShellNotif.exited id code =>
        if id = s.shellId then { s with barrier := barrierOpen s.barrier (some code) } else s
    | ShellNotif.terminated id =>
        if id = s.shellId then { s with barrier := barrierOpen s.barrier none } else s
  else s

/-- Deliver a whole sequence of notifications in order. -/
def runNotifs (s : RunState) (ns : List ShellNotif) : RunState :=
  ns.foldl stepNotif s

/-- JavaScript `String.prototype.trim` (as used in `combinedOut.trim()` and
`shell.buffer.join("\n").trim()`): remove leading and trailing whitespace.
Defined structurally over the character list so that it evaluates inside the
kernel. -/
def jsTrim (s : String) : String :=
  String.mk (((s.data.dropWhile Char.isWhitespace).reverse.dropWhile Char.isWhitespace).reverse)

/-- The settled value of a running command (`{output, exitCode}`). -/
structure CommandResult where
  output : String
  exitCode : Option Int
deriving DecidableEq, Repr

/-- The continuation after `await barrier.wait()` in `runCommandAsUser`
(src/setup.ts lines 431-441): once the gate has opened, the promise settles
with the trimmed accumulator and the exit code carried by the gate; while the
gate is pending the promise stays unsettled. (`barrier.dispose` is never
invoked by the embedded code, so the disposed branch is unreachable.) -/
def settleNow (s : RunState) : Option CommandResult :=
  match s.barrier with
  | BarrierState.opened v => some { output := jsTrim s.combinedOut, exitCode := v }
  | _ => none

/-- The source expression `buffer.join("\n")`. -/
def joinNl (xs : List String) : String :=
  String.intercalate "\n" xs

/-- The command string with environment-variable assignments prepended
(src/setup.ts lines 371-373). -/
def commandWithEnv (env : List (String × String)) (command : String) : String :=
  "env " ++ String.intercalate " " (env.map (fun kv => kv.fst ++ "=" ++ kv.snd)) ++ " " ++ command

/-- The three possible outcomes of starting a run: the pre-command step threw
(promise rejects), the remote session was already FINISHED (immediate
resolution), or the run is pending with subscriptions registered. The pending
case records the initial `onOutput.fire` event if the pre-existing buffer was
non-empty. -/
inductive RunStart
  | rejected (err : String)
  | immediate (result : CommandResult)
  | pending (st : RunState) (initialOutputEvent : Option String)
deriving DecidableEq, Repr

/-- The creation phase of `runCommandAsUser` (src/setup.ts lines 364-429),
up to the point where the async function either returns, throws, or starts
waiting on the gate. `preCommand` is the result of the optional pre-command
step (`none` when absent, as on the `Shells.run` path); `create` is the
descriptor the remote returns for the created session. Alongside the outcome
the list of performed effects is returned in order. -/
def startRun (preCommand : Option (Except String Unit)) (create : OpenShellDTO)
    (shellName : Option String) : RunStart × List Effect :=
  match preCommand with
  | some (Except.error e) => (RunStart.rejected e, [])
  | _ =>
    let renameFx : List Effect :=
      match shellName with
      | some n => [Effect.renameSession n]
      | none => []
    if create.status = ShellStatus.FINISHED then
      (RunStart.immediate { output := jsTrim (joinNl create.buffer), exitCode := create.exitCode },
        Effect.createSession :: renameFx)
    else
      let combined := joinNl create.buffer
      (RunStart.pending
          { shellId := create.shellId, combinedOut := combined,
            barrier := BarrierState.pending, subsActive := true }
          (if combined = "" then none else some combined),
        Effect.createSession :: renameFx ++
          [Effect.subOutput, Effect.subExited, Effect.subTerminated])

/-- Embeds `RunningCommand.kill` (src/setup.ts lines 444-450): dispose the
`DisposableStore` (removing the three listeners) and, only if the session
variable was already assigned, request a best-effort remote delete. The gate
is not touched. -/
def killCommand (s : RunState) (shellAssigned : Bool) : RunState × List Effect :=
  ({ s with subsActive := false },
    if shellAssigned then [Effect.remoteDelete] else [])

/-- The exit-code value carried by the first terminal notification for the
given session id: `some (some c)` for a matching exited notification with
code c, `some none` for a matching terminated notification, `none` when no
terminal notification for this id occurs. -/
def firstTerminal (id : Nat) : List ShellNotif → Option (Option Int)
  | [] => none
  | ShellNotif.output _ _ :: rest => firstTerminal id rest
  | ShellNotif.exited i c :: rest =>
      if i = id then some (some c) else firstTerminal id rest
  | ShellNotif.terminated i :: rest =>
      if i = id then some none else firstTerminal id rest

/-! Basic lemmas about the notification step. -/

theorem stepNotif_shellId (s : RunState) (n : ShellNotif) :
    (stepNotif s n).shellId = s.shellId := by
  cases hs : s.subsActive
  · simp [stepNotif, hs]
  · cases n <;> simp [stepNotif, hs] <;> split <;> simp

theorem stepNotif_subsActive (s : RunState) (n : ShellNotif) :
    (stepNotif s n).subsActive = s.subsActive := by
  cases hs : s.subsActive
  · simp [stepNotif, hs]
  · cases n <;> simp [stepNotif, hs] <;> split <;> simp [hs]

theorem stepNotif_inactive (s : RunState) (n : ShellNotif)
    (h : s.subsActive = false) : stepNotif s n = s := by
  unfold stepNotif
  rw [h]
  simp

theorem runNotifs_inactive (s : RunState) (ns : List ShellNotif)
    (h : s.subsActive = false) : runNotifs s ns = s := by
  induction ns with
  | nil => rfl
  | cons n rest ih =>
      show runNotifs (stepNotif s n) rest = s
      rw [stepNotif_inactive s n h]
      exact ih

theorem stepNotif_barrier_opened (s : RunState) (n : ShellNotif) (v : Option Int)
    (h : s.barrier = BarrierState.opened v) :
    (stepNotif s n).barrier = BarrierState.opened v := by
  unfold stepNotif
  cases n <;> simp <;> split <;> (try split) <;> simp [h, barrierOpen]

theorem runNotifs_barrier_opened (s : RunState) (ns : List ShellNotif) (v : Option Int)
    (h : s.barrier = BarrierState.opened v) :
    (runNotifs s ns).barrier = BarrierState.opened v := by
  induction ns generalizing s with
  | nil => exact h
  | cons n rest ih =>
      exact ih (stepNotif s n) (stepNotif_barrier_opened s n v h)

theorem runNotifs_outputs (cs : List String) (s : RunState) (h : s.subsActive = true) :
    runNotifs s (cs.map (fun c => ShellNotif.output s.shellId c)) =
      { s with combinedOut := cs.foldl (fun a c => a ++ c) s.combinedOut } := by
  induction cs generalizing s with
  | nil => rfl
  | cons c rest ih =>
      have hstep : stepNotif s (ShellNotif.output s.shellId c) =
          { s with combinedOut := s.combinedOut ++ c } := by
        unfold stepNotif
        rw [h]
        simp
      show runNotifs (stepNotif s (ShellNotif.output s.shellId c))
            (rest.map (fun c => ShellNotif.output s.shellId c)) = _
      rw [hstep]
      exact ih { s with combinedOut := s.combinedOut ++ c } h

/-- The gate of a pending, subscribed run after an arbitrary notification
sequence is exactly determined by the first terminal notification for its
session id. -/
theorem runNotifs_barrier_firstTerminal (ns : List ShellNotif) (s : RunState)
    (hb : s.barrier = BarrierState.pending) (ha : s.subsActive = true) :
    (runNotifs s ns).barrier =
      (match firstTerminal s.shellId ns with
       | some v => BarrierState.opened v
       | none => BarrierState.pending) := by
  induction ns generalizing s with
  | nil => simpa [runNotifs, firstTerminal] using hb
  | cons n rest ih =>
      cases n with
      | output i c =>
          show (runNotifs (stepNotif s (ShellNotif.output i c)) rest).barrier = _
          have h1 : (stepNotif s (ShellNotif.output i c)).barrier = BarrierState.pending := by
            simp only [stepNotif, ha, if_true]
            split <;> simpa using hb
          have h2 := ih (stepNotif s (ShellNotif.output i c)) h1
            (by rw [stepNotif_subsActive]; exact ha)
          rw [h2, stepNotif_shellId]
          rfl
      | exited i c =>
          by_cases hid : i = s.shellId
          · have h1 : stepNotif s (ShellNotif.exited i c) =
                { s with barrier := BarrierState.opened (some c) } := by
              simp [stepNotif, ha, hid, hb, barrierOpen]
            show (runNotifs (stepNotif s (ShellNotif.exited i c)) rest).barrier = _
            rw [h1, runNotifs_barrier_opened _ rest (some c) rfl]
            simp [firstTerminal, hid]
          · have h1 : stepNotif s (ShellNotif.exited i c) = s := by
              simp [stepNotif, ha, hid]
            show (runNotifs (stepNotif s (ShellNotif.exited i c)) rest).barrier = _
            rw [h1, ih s hb ha]
            simp [firstTerminal, hid]
      | terminated i =>
          by_cases hid : i = s.shellId
          · have h1 : stepNotif s (ShellNotif.terminated i) =
                { s with barrier := BarrierState.opened none } := by
              simp [stepNotif, ha, hid, hb, barrierOpen]
            show (runNotifs (stepNotif s (ShellNotif.terminated i)) rest).barrier = _
            rw [h1, runNotifs_barrier_opened _ rest none rfl]
            simp [firstTerminal, hid]
          · have h1 : stepNotif s (ShellNotif.terminated i) = s := by
              simp [stepNotif, ha, hid]
            show (runNotifs (stepNotif s (ShellNotif.terminated i)) rest).barrier = _
            rw [h1, ih s hb ha]
            simp [firstTerminal, hid]

/-- C1: a run-path command whose session is created RUNNING with an empty
pre-existing buffer starts pending with an empty accumulator; delivering the
output chunks c1,…,cn for its session id followed by an exited notification
with code e settles the promise with output equal to the plain concatenation
of the chunks (not newline-joined) trimmed of surrounding whitespace, and
exit code e. -/
theorem run_output_concat_exit (shell : OpenShellDTO) (shellName : Option String)
    (cs : List String) (e : Int)
    (hst : shell.status = ShellStatus.RUNNING) (hbuf : shell.buffer = []) :
    (startRun none shell shellName).fst =
      RunStart.pending
        { shellId := shell.shellId, combinedOut := "",
          barrier := BarrierState.pending, subsActive := true } none
    ∧ settleNow (runNotifs
        { shellId := shell.shellId, combinedOut := "",
          barrier := BarrierState.pending, subsActive := true }
        (cs.map (fun c => ShellNotif.output shell.shellId c) ++
          [ShellNotif.exited shell.shellId e]))
      = some { output := jsTrim (String.join cs), exitCode := some e } := by
  constructor
  · have hnl : joinNl [] = "" := rfl
    unfold startRun
    simp [hst, hbuf, hnl]
  · rw [runNotifs, List.foldl_append]
    have h1 := runNotifs_outputs cs
      { shellId := shell.shellId, combinedOut := "",
        barrier := BarrierState.pending, subsActive := true } rfl
    rw [runNotifs] at h1
    rw [h1]
    simp [stepNotif, barrierOpen, settleNow, String.join]

/-- C1 witness: for the session of command "echo hi", one chunk "hi\n" and
exit code 0 give the result {output := "hi", exitCode := 0}. -/
theorem run_output_concat_exit_witness :
    settleNow (runNotifs
        { shellId := 1, combinedOut := "",
          barrier := BarrierState.pending, subsActive := true }
        ((["hi\n"].map (fun c => ShellNotif.output 1 c)) ++ [ShellNotif.exited 1 0]))
      = some { output := "hi", exitCode := some 0 } := by
  have h := (run_output_concat_exit
      { shellId := 1, status := ShellStatus.RUNNING, exitCode := none, buffer := [] }
      none ["hi\n"] 0 rfl rfl).2
  simpa [jsTrim, String.join] using h

/-- C2: for a pending subscribed run, the settled exit code reflects exactly
the first terminal notification for its session id: an exited notification
with code c gives exit code c, a terminated notification gives no exit code
(never conflated with 0), and later terminal notifications cannot change the
already-opened gate. -/
theorem exit_code_first_terminal (s : RunState) (ns : List ShellNotif)
    (hb : s.barrier = BarrierState.pending) (ha : s.subsActive = true) :
    (runNotifs s ns).barrier =
      (match firstTerminal s.shellId ns with
       | some v => BarrierState.opened v
       | none => BarrierState.pending)
    ∧ (∀ c : Int, firstTerminal s.shellId ns = some (some c) →
        (settleNow (runNotifs s ns)).map CommandResult.exitCode = some (some c))
    ∧ (firstTerminal s.shellId ns = some none →
        (settleNow (runNotifs s ns)).map CommandResult.exitCode = some none) := by
  have hmain := runNotifs_barrier_firstTerminal ns s hb ha
  refine ⟨hmain, ?_, ?_⟩
  · intro c hc
    rw [hc] at hmain
    simp only at hmain
    simp [settleNow, hmain]
  · intro hc
    rw [hc] at hmain
    simp only at hmain
    simp [settleNow, hmain]

/-- C2 witness: with an exited(code 5) notification followed by a
terminated notification for the same session, the gate holds exit code 5;
the later terminal notification is ignored. -/
theorem exit_code_first_terminal_witness :
    (runNotifs
        { shellId := 1, combinedOut := "",
          barrier := BarrierState.pending, subsActive := true }
        [ShellNotif.exited 1 5, ShellNotif.terminated 1]).barrier
      = BarrierState.opened (some 5) := by
  have h := (exit_code_first_terminal
      { shellId := 1, combinedOut := "",
        barrier := BarrierState.pending, subsActive := true }
      [ShellNotif.exited 1 5, ShellNotif.terminated 1] rfl rfl).1
  simpa [firstTerminal] using h

/-- C3: if the remote session reports status FINISHED already at creation,
the run resolves immediately with the trimmed pre-existing buffered output
and the session's exit code, and no output/exited/terminated notification
subscription is registered. -/
theorem run_finished_immediate (shell : OpenShellDTO) (shellName : Option String)
    (h : shell.status = ShellStatus.FINISHED) :
    (startRun none shell shellName).fst =
      RunStart.immediate
        { output := jsTrim (joinNl shell.buffer), exitCode := shell.exitCode }
    ∧ Effect.subOutput ∉ (startRun none shell shellName).snd
    ∧ Effect.subExited ∉ (startRun none shell shellName).snd
    ∧ Effect.subTerminated ∉ (startRun none shell shellName).snd := by
  unfold startRun
  cases shellName <;> simp [h]

/-- C3 witness: a session already FINISHED with exit code 3 and buffer
["a", "b"] resolves immediately to output "a\nb" with exit code 3, with no
subscriptions registered. -/
theorem run_finished_immediate_witness :
    (startRun none
        { shellId := 2, status := ShellStatus.FINISHED, exitCode := some 3,
          buffer := ["a", "b"] } none).fst =
      RunStart.immediate { output := "a\nb", exitCode := some 3 }
    ∧ Effect.subOutput ∉ (startRun none
        { shellId := 2, status := ShellStatus.FINISHED, exitCode := some 3,
          buffer := ["a", "b"] } none).snd := by
  have h := run_finished_immediate
    { shellId := 2, status := ShellStatus.FINISHED, exitCode := some 3,
      buffer := ["a", "b"] } none rfl
  exact ⟨by simpa [jsTrim, joinNl] using h.1, h.2.1⟩

/-- C4 counterexample: the claim that a terminal notification arriving after
kill() unblocks the in-flight wait is false — kill() disposes the exited and
terminated subscriptions, so the subsequent exited notification never reaches
the gate and the promise stays unsettled. -/
theorem kill_then_exit_never_settles :
    settleNow (runNotifs
      (killCommand
        { shellId := 1, combinedOut := "",
          barrier := BarrierState.pending, subsActive := true } true).fst
      [ShellNotif.exited 1 0]) = none := rfl

/-- C4 amended: kill() disposes the three notification subscriptions and
issues a best-effort remote delete (only when the session was created), does
not itself settle the result promise, and afterwards the in-flight wait never
completes: every subsequent notification sequence — terminal notifications
for this session id included — is ignored by the disposed subscriptions. -/
theorem kill_disposes_never_settles (s : RunState) (assigned : Bool)
    (hb : s.barrier = BarrierState.pending) :
    (killCommand s assigned).fst.subsActive = false
    ∧ (killCommand s assigned).snd = (if assigned then [Effect.remoteDelete] else [])
    ∧ settleNow (killCommand s assigned).fst = none
    ∧ (∀ ns : List ShellNotif,
        settleNow (runNotifs (killCommand s assigned).fst ns) = none) := by
  refine ⟨rfl, rfl, ?_, ?_⟩
  · simp [settleNow, killCommand, hb]
  · intro ns
    rw [runNotifs_inactive _ ns rfl]
    simp [settleNow, killCommand, hb]

/-- C4 amended witness: killing a concrete pending run with the session
assigned, then delivering an exited notification, leaves the promise
unsettled. -/
theorem kill_disposes_never_settles_witness :
    settleNow (runNotifs
      (killCommand
        { shellId := 1, combinedOut := "x",
          barrier := BarrierState.pending, subsActive := true } true).fst
      [ShellNotif.exited 1 7]) = none :=
  (kill_disposes_never_settles
    { shellId := 1, combinedOut := "x",
      barrier := BarrierState.pending, subsActive := true } true rfl).2.2.2
    [ShellNotif.exited 1 7]

/-- C10: when the pre-command step fails with error e, the run rejects with
that error and performs no effect at all — in particular no remote session is
created; and kill() invoked while the session variable is still unassigned
disposes the local subscriptions but issues no remote delete. -/
theorem precommand_failure_rejects (e : String) (shell : OpenShellDTO)
    (shellName : Option String) (s : RunState) :
    startRun (some (Except.error e)) shell shellName = (RunStart.rejected e, [])
    ∧ killCommand s false = ({ s with subsActive := false }, []) :=
  ⟨rfl, rfl⟩

/-! The `AsyncEmitter` broadcast (src/utils/event.ts). A registered
asynchronous listener is abstracted by its settlement behaviour when invoked:
the discrete time at which its returned promise settles (`none` when it never
settles) and whether it fulfils or rejects. -/

/-- One registered asynchronous listener of an `AsyncEmitter`. -/
structure AsyncListener where
  delay : Option Nat
  result : Except String Unit
deriving Repr

/-- The observable outcome of one `AsyncEmitter.fire` call. -/
inductive FireOutcome
  | success
  | failure (reason : String)
  | timedOut
deriving DecidableEq, Repr

/-- What a `fire` call did: how many listeners it invoked, when the caller's
wait ended, and how. -/
structure FireResult where
  invoked : Nat
  settledAt : Nat
  outcome : FireOutcome
deriving DecidableEq, Repr

/-- The time at which `Promise.allSettled` over all listener promises
settles: the maximum of the individual settlement times, or never (`none`)
when some listener never settles. -/
def allSettledTime : List AsyncListener → Option Nat
  | [] => some 0
  | l :: rest =>
      match l.delay, allSettledTime rest with
      | some d, some t => some (max d t)
      | _, _ => none

/-- The reason rethrown by the for-loop over the settled results in
`AsyncEmitter.fire`: the first rejected listener in registration order. -/
def firstRejection : List AsyncListener → Option String
  | [] => none
  | l :: rest =>
      match l.result with
      | Except.error r => some r
      | Except.ok _ => firstRejection rest

/-- Embeds `AsyncEmitter.fire` (src/utils/event.ts lines 145-161): every registered
listener is invoked immediately, then the call races `sleep(timeoutMs)`
followed by a throw against `Promise.allSettled` of the listener promises
followed by rethrowing the first rejection. `sleep` (src/utils/sleep.ts, not
under src/) is modelled from the spec: a promise settling after exactly the
configured timeout. Promise scheduling is abstracted to discrete settlement
times: the timer wins the race exactly when allSettled has not completed
within `timeoutMs`. -/
def asyncFire (timeoutMs : Nat) (ls : List AsyncListener) : FireResult :=
  match allSettledTime ls with
  | none => { invoked := ls.length, settledAt := timeoutMs, outcome := FireOutcome.timedOut }
  | some t =>
      if t ≤ timeoutMs then
        match firstRejection ls with
        | some r => { invoked := ls.length, settledAt := t, outcome := FireOutcome.failure r }
        | none => { invoked := ls.length, settledAt := t, outcome := FireOutcome.success }
      else { invoked := ls.length, settledAt := timeoutMs, outcome := FireOutcome.timedOut }

theorem asyncFire_eq_hang (T : Nat) (ls : List AsyncListener)
    (h : allSettledTime ls = none) :
    asyncFire T ls = { invoked := ls.length, settledAt := T, outcome := FireOutcome.timedOut } := by
  simp [asyncFire, h]

theorem asyncFire_eq_late (T : Nat) (ls : List AsyncListener) (t : Nat)
    (h : allSettledTime ls = some t) (hT : ¬ t ≤ T) :
    asyncFire T ls = { invoked := ls.length, settledAt := T, outcome := FireOutcome.timedOut } := by
  simp [asyncFire, h, hT]

theorem asyncFire_eq_reject (T : Nat) (ls : List AsyncListener) (t : Nat) (r : String)
    (h : allSettledTime ls = some t) (hT : t ≤ T) (hr : firstRejection ls = some r) :
    asyncFire T ls = { invoked := ls.length, settledAt := t, outcome := FireOutcome.failure r } := by
  simp [asyncFire, h, hT, hr]

theorem asyncFire_eq_ok (T : Nat) (ls : List AsyncListener) (t : Nat)
    (h : allSettledTime ls = some t) (hT : t ≤ T) (hr : firstRejection ls = none) :
    asyncFire T ls = { invoked := ls.length, settledAt := t, outcome := FireOutcome.success } := by
  simp [asyncFire, h, hT, hr]

theorem allSettledTime_le (ls : List AsyncListener) :
    ∀ t : Nat, allSettledTime ls = some t → ∀ l ∈ ls, ∃ d, l.delay = some d ∧ d ≤ t := by
  induction ls with
  | nil => intro t _ l hl; cases hl
  | cons a rest ih =>
      intro t h l hl
      cases hd : a.delay with
      | none => rw [allSettledTime, hd] at h; simp at h
      | some d =>
          cases hrest : allSettledTime rest with
          | none => rw [allSettledTime, hd, hrest] at h; simp at h
          | some tr =>
              rw [allSettledTime, hd, hrest] at h
              simp at h
              rcases List.mem_cons.mp hl with hla | hlr
              · exact ⟨d, hla ▸ hd, h ▸ Nat.le_max_left d tr⟩
              · obtain ⟨d', hd', hle⟩ := ih tr hrest l hlr
                exact ⟨d', hd', le_trans hle (h ▸ Nat.le_max_right d tr)⟩

theorem allSettledTime_within (ls : List AsyncListener) (T : Nat)
    (h : ∀ l ∈ ls, ∃ d, l.delay = some d ∧ d ≤ T) :
    ∃ t, allSettledTime ls = some t ∧ t ≤ T := by
  induction ls with
  | nil => exact ⟨0, rfl, Nat.zero_le T⟩
  | cons a rest ih =>
      obtain ⟨d, hd, hdT⟩ := h a (List.mem_cons_self a rest)
      obtain ⟨t, ht, htT⟩ := ih (fun l hl => h l (List.mem_cons_of_mem a hl))
      exact ⟨max d t, by rw [allSettledTime, hd, ht], max_le hdT htT⟩

theorem firstRejection_none_iff (ls : List AsyncListener) :
    firstRejection ls = none ↔ ∀ l ∈ ls, l.result = Except.ok () := by
  induction ls with
  | nil => simp [firstRejection]
  | cons a rest ih =>
      cases hr : a.result with
      | error r => simp [firstRejection, hr]
      | ok u => cases u; simp [firstRejection, hr, ih]

/-- C5: an `AsyncEmitter.fire` invokes every currently-registered listener;
it succeeds exactly when every listener fulfils within the timeout; when some
listener rejects but all settle within the timeout, the failure is reported
only at the moment all listeners have settled (never short-circuiting on the
first rejection); when the listeners have not all settled by the timeout, the
call rejects with a timeout error at time T even though listeners may still
be in flight. -/
theorem async_fire_correct (T : Nat) (ls : List AsyncListener) :
    (asyncFire T ls).invoked = ls.length
    ∧ ((asyncFire T ls).outcome = FireOutcome.success ↔
        (∀ l ∈ ls, (∃ d, l.delay = some d ∧ d ≤ T) ∧ l.result = Except.ok ()))
    ∧ (∀ t r, allSettledTime ls = some t → t ≤ T → firstRejection ls = some r →
        asyncFire T ls =
          { invoked := ls.length, settledAt := t, outcome := FireOutcome.failure r }
        ∧ ∀ l ∈ ls, ∃ d, l.delay = some d ∧ d ≤ t)
    ∧ ((allSettledTime ls = none ∨ (∃ t, allSettledTime ls = some t ∧ T < t)) →
        asyncFire T ls =
          { invoked := ls.length, settledAt := T, outcome := FireOutcome.timedOut }) := by
  refine ⟨?_, ⟨?_, ?_⟩, ?_, ?_⟩
  · cases h : allSettledTime ls with
    | none => rw [asyncFire_eq_hang T ls h]
    | some t =>
        by_cases hT : t ≤ T
        · cases hr : firstRejection ls with
          | none => rw [asyncFire_eq_ok T ls t h hT hr]
          | some r => rw [asyncFire_eq_reject T ls t r h hT hr]
        · rw [asyncFire_eq_late T ls t h hT]
  · intro hsucc
    cases h : allSettledTime ls with
    | none => rw [asyncFire_eq_hang T ls h] at hsucc; cases hsucc
    | some t =>
        by_cases hT : t ≤ T
        · cases hr : firstRejection ls with
          | none =>
              intro l hl
              obtain ⟨d, hd, hdt⟩ := allSettledTime_le ls t h l hl
              exact ⟨⟨d, hd, le_trans hdt hT⟩, (firstRejection_none_iff ls).mp hr l hl⟩
          | some r => rw [asyncFire_eq_reject T ls t r h hT hr] at hsucc; cases hsucc
        · rw [asyncFire_eq_late T ls t h hT] at hsucc; cases hsucc
  · intro hall
    obtain ⟨t, ht, htT⟩ := allSettledTime_within ls T (fun l hl => (hall l hl).1)
    have hr : firstRejection ls = none :=
      (firstRejection_none_iff ls).mpr (fun l hl => (hall l hl).2)
    rw [asyncFire_eq_ok T ls t ht htT hr]
  · intro t r ht hT hr
    exact ⟨asyncFire_eq_reject T ls t r ht hT hr, allSettledTime_le ls t ht⟩
  · intro hcase
    rcases hcase with h | ⟨t, ht, hTt⟩
    · exact asyncFire_eq_hang T ls h
    · exact asyncFire_eq_late T ls t ht (Nat.not_le.mpr hTt)

/-- C5 witness: with timeout 10 and listeners {A fulfils at 3, B rejects at 5
with "boom"}, fire invokes both and reports B's failure at time 5, after both
have settled. -/
theorem async_fire_correct_witness :
    asyncFire 10
        [{ delay := some 3, result := Except.ok () },
         { delay := some 5, result := Except.error "boom" }] =
      { invoked := 2, settledAt := 5, outcome := FireOutcome.failure "boom" } :=
  ((async_fire_correct 10
      [{ delay := some 3, result := Except.ok () },
       { delay := some 5, result := Except.error "boom" }]).2.2.1
    5 "boom" rfl (by decide) rfl).1

/-! The synchronous `Emitter` (src/utils/event.ts lines 78-106). Listeners
are identified by keys (naturals); the `registeredListeners` JavaScript Set
is modelled as a duplicate-free list in insertion order. For firing passes, a
listener's behaviour is abstracted by the listener keys it removes when it is
invoked (the only mid-fire mutation the claims speak about); JavaScript Set
iteration visits entries in insertion order and skips entries removed before
being visited. -/

/-- Embeds `Emitter.event` applied to a listener: add it to the registered set
(`Set.add`: no effect when already present). -/
def emRegister (listeners : List Nat) (l : Nat) : List Nat :=
  if l ∈ listeners then listeners else listeners ++ [l]

/-- Disposing the registration returned by `Emitter.event`: delete exactly
that listener from the registered set. -/
def emDisposeListener (listeners : List Nat) (l : Nat) : List Nat :=
  listeners.erase l

/-- One firing pass of `Emitter.fire` (`registeredListeners.forEach`):
`pending` are the entries scheduled for the pass in insertion order, `reg`
the live registered set, `beh l` the listeners that listener `l` removes from
within its own invocation. Returns the invocation log and the final
registered set. -/
def fireLoop (beh : Nat → List Nat) : List Nat → List Nat → List Nat × List Nat
  | [], reg => ([], reg)
  | l :: rest, reg =>
      if l ∈ reg then
        let p := fireLoop beh rest ((beh l).foldl List.erase reg)
        (l :: p.fst, p.snd)
      else fireLoop beh rest reg

/-- Embeds `Emitter.fire`: run one pass over the currently-registered listeners. -/
def emFire (beh : Nat → List Nat) (reg : List Nat) : List Nat × List Nat :=
  fireLoop beh reg reg

theorem fireLoop_no_removal (pending : List Nat) :
    ∀ reg : List Nat, (∀ x ∈ pending, x ∈ reg) →
      fireLoop (fun _ => []) pending reg = (pending, reg) := by
  induction pending with
  | nil => intro reg _; rfl
  | cons l rest ih =>
      intro reg h
      have hl : l ∈ reg := h l (List.mem_cons_self l rest)
      have hrest := ih reg (fun x hx => h x (List.mem_cons_of_mem l hx))
      simp [fireLoop, hl, hrest]

theorem fireLoop_self_removal (L : Nat) (pending : List Nat) :
    ∀ reg : List Nat, pending.Nodup → (∀ x ∈ pending, x ∈ reg) →
      (fireLoop (fun x => if x = L then [L] else []) pending reg).fst = pending := by
  induction pending with
  | nil => intro reg _ _; rfl
  | cons l rest ih =>
      intro reg hnd h
      have hl : l ∈ reg := h l (List.mem_cons_self l rest)
      by_cases hlL : l = L
      · subst hlL
        have hrest : ∀ x ∈ rest, x ∈ reg.erase l := by
          intro x hx
          have hxL : x ≠ l :=
            fun hxeq => (List.nodup_cons.mp hnd).1 (hxeq ▸ hx)
          exact (List.mem_erase_of_ne hxL).mpr (h x (List.mem_cons_of_mem l hx))
        have hres := ih (reg.erase l) (List.nodup_cons.mp hnd).2 hrest
        simp [fireLoop, hl, hres]
      · have hres := ih reg (List.nodup_cons.mp hnd).2
          (fun x hx => h x (List.mem_cons_of_mem l hx))
        simp [fireLoop, hl, hlL, hres]

/-- C6: registering a listener and disposing the returned registration
restores the original listener set; disposing removes exactly that listener
(it is gone, everyone else stays); firing invokes every currently-registered
listener; and a listener that removes itself from within its own invocation
does not affect delivery to the other listeners of the same firing pass. -/
theorem emitter_register_fire_isolation (reg : List Nat) (v L : Nat)
    (hnd : reg.Nodup) (hv : v ∉ reg) (hL : L ∈ reg) :
    emDisposeListener (emRegister reg v) v = reg
    ∧ L ∉ emDisposeListener reg L
    ∧ (∀ x ∈ reg, x ≠ L → x ∈ emDisposeListener reg L)
    ∧ (emFire (fun _ => []) reg).fst = reg
    ∧ (emFire (fun x => if x = L then [L] else []) reg).fst = reg := by
  refine ⟨?_, ?_, ?_, ?_, ?_⟩
  · unfold emRegister emDisposeListener
    rw [if_neg hv, List.erase_append_right [v] hv]
    simp
  · exact hnd.not_mem_erase
  · intro x hx hxL
    exact (List.mem_erase_of_ne hxL).mpr hx
  · unfold emFire
    rw [fireLoop_no_removal reg reg (fun x hx => hx)]
  · exact fireLoop_self_removal L reg reg hnd (fun x hx => hx)

/-- C6 witness: with registered listeners {1, 2, 3} where listener 2 removes
itself during its own invocation, the firing pass still invokes 1, 2 and 3. -/
theorem emitter_register_fire_isolation_witness :
    (emFire (fun x => if x = 2 then [2] else []) [1, 2, 3]).fst = [1, 2, 3] :=
  (emitter_register_fire_isolation [1, 2, 3] 4 2 (by decide) (by decide)
    (by decide)).2.2.2.2

/-! The `ShellInstance` display buffer (src/setup.ts lines 285-296, 347-349). -/

/-- The buffer mutation of the `onShellOut` handler for a matching
notification: push the chunk, then shift off the oldest entry when the length
exceeds 1000. -/
def pushChunk (buf : List String) (out : String) : List String :=
  let b := buf ++ [out]
  if b.length > 1000 then b.tail else b

/-- The per-handle state a `ShellInstance` keeps for its display buffer: the
shell id its handler filters on and the `output` array. -/
structure ShellOutputState where
  shellId : Nat
  output : List String
deriving DecidableEq, Repr

/-- The full `onShellOut` handler of `ShellInstance`: mutate the buffer only
when the notification's shell id matches. -/
def shellOutStep (s : ShellOutputState) (shellId : Nat) (out : String) : ShellOutputState :=
  if shellId = s.shellId then { s with output := pushChunk s.output out } else s

/-- Deliver a sequence of (shellId, chunk) notifications in order. -/
def shellOutRun (s : ShellOutputState) (ns : List (Nat × String)) : ShellOutputState :=
  ns.foldl (fun st p => shellOutStep st p.fst p.snd) s

/-- Embeds `ShellInstance.getOutput`: the retained entries joined by newlines. -/
def getOutput (s : ShellOutputState) : String :=
  String.intercalate "\n" s.output

theorem pushChunk_foldl (cs : List String) :
    ∀ init : List String, init.length ≤ 1000 →
      cs.foldl pushChunk init = (init ++ cs).drop ((init ++ cs).length - 1000) := by
  induction cs with
  | nil =>
      intro init h
      have h0 : init.length - 1000 = 0 := Nat.sub_eq_zero_of_le h
      simp [h0]
  | cons c rest ih =>
      intro init h
      rw [List.foldl_cons]
      by_cases hlen : init.length + 1 ≤ 1000
      · have hp : pushChunk init c = init ++ [c] := by
          unfold pushChunk
          rw [if_neg (by simp; omega)]
        rw [hp, ih (init ++ [c]) (by simp; omega)]
        simp
      · have hp : pushChunk init c = (init ++ [c]).drop 1 := by
          unfold pushChunk
          rw [if_pos (by simp; omega)]
          exact (List.drop_one _).symm
        have hlenP : ((init ++ [c]).drop 1).length ≤ 1000 := by
          simp
          omega
        rw [hp, ih _ hlenP]
        have hdp : (init ++ [c]).drop 1 ++ rest = ((init ++ [c]) ++ rest).drop 1 :=
          (List.drop_append_of_le_length (by simp)).symm
        rw [hdp, List.drop_drop]
        have hsplit : (init ++ [c]) ++ rest = init ++ c :: rest := by simp
        rw [hsplit]
        have hidx : 1 + (((init ++ c :: rest).drop 1).length - 1000) =
            (init ++ c :: rest).length - 1000 := by
          simp
          omega
        rw [hidx]

theorem shellOutRun_matching (cs : List String) :
    ∀ s : ShellOutputState,
      shellOutRun s (cs.map (fun c => (s.shellId, c))) =
        { s with output := cs.foldl pushChunk s.output } := by
  induction cs with
  | nil => intro s; rfl
  | cons c rest ih =>
      intro s
      show shellOutRun (shellOutStep s s.shellId c)
          (rest.map (fun c => (s.shellId, c))) = _
      have hstep : shellOutStep s s.shellId c =
          { s with output := pushChunk s.output c } := by
        simp [shellOutStep]
      rw [hstep]
      exact ih { s with output := pushChunk s.output c }

/-- C7: starting from a display buffer within the documented capacity, after
any sequence of output notifications matching the shell id the buffer holds
exactly the most recent entries of (initial buffer ++ chunks) up to 1000, in
arrival order with the oldest evicted first (so 1001 chunks from an empty
buffer leave exactly the newest 1000); it never exceeds 1000 entries;
`getOutput()` returns exactly the retained entries joined by newlines; and
notifications for other shell ids leave the buffer untouched. -/
theorem shell_ring_buffer (s : ShellOutputState) (cs : List String)
    (h : s.output.length ≤ 1000) :
    (shellOutRun s (cs.map (fun c => (s.shellId, c)))).output =
      (s.output ++ cs).drop ((s.output ++ cs).length - 1000)
    ∧ (shellOutRun s (cs.map (fun c => (s.shellId, c)))).output.length ≤ 1000
    ∧ getOutput (shellOutRun s (cs.map (fun c => (s.shellId, c)))) =
        String.intercalate "\n"
          ((s.output ++ cs).drop ((s.output ++ cs).length - 1000))
    ∧ (∀ i c, i ≠ s.shellId → shellOutStep s i c = s) := by
  have hout : (shellOutRun s (cs.map (fun c => (s.shellId, c)))).output =
      (s.output ++ cs).drop ((s.output ++ cs).length - 1000) := by
    rw [shellOutRun_matching cs s]
    exact pushChunk_foldl cs s.output h
  refine ⟨hout, ?_, ?_, ?_⟩
  · rw [hout]
    simp
    omega
  · rw [getOutput, hout]
  · intro i c hi
    simp [shellOutStep, hi]

/-- C7 witness: a buffer holding ["a"] that receives matching chunks "b" and
"c" retains ["a", "b", "c"], within capacity, and getOutput is "a\nb\nc". -/
theorem shell_ring_buffer_witness :
    (shellOutRun { shellId := 7, output := ["a"] }
        (["b", "c"].map (fun c => ((7 : Nat), c)))).output = ["a", "b", "c"]
    ∧ getOutput (shellOutRun { shellId := 7, output := ["a"] }
        (["b", "c"].map (fun c => ((7 : Nat), c)))) = "a\nb\nc" := by
  have h := shell_ring_buffer { shellId := 7, output := ["a"] } ["b", "c"]
    (by decide)
  refine ⟨?_, ?_⟩
  · rw [h.1]
    rfl
  · rw [h.2.2.1]
    rfl

/-! The `Ports` component (src/ports.ts lines 34-58). -/

/-- One entry of a ports-updated batch as delivered by the collaborator:
a port number and its url. -/
structure PortDTO where
  port : Nat
  url : String
deriving DecidableEq, Repr

/-- The `PortInfo` value fired on the open event (src/ports.ts lines 6-12). -/
structure PortInfo where
  port : Nat
  hostname : String
deriving DecidableEq, Repr

/-- What one `onPortsUpdated` invocation produces: the open events fired (in
batch order), the close events fired, and the stored snapshot afterwards. -/
structure PortsUpdate where
  openEvents : List PortInfo
  closeEvents : List Nat
  lastOpenedPorts : List Nat
deriving DecidableEq, Repr

/-- The `onPortsUpdated` handler (src/ports.ts lines 35-57): open events for
batch ports absent from the previous snapshot, close events for snapshot
ports absent from the batch (`ports.some(p => p.port === port)` is
membership of the port number in the batch), then the snapshot is replaced by
the set of batch port numbers. The JavaScript `Set` snapshot is modelled as a
duplicate-free list. -/
def portsUpdated (lastOpened : List Nat) (ports : List PortDTO) : PortsUpdate :=
  { openEvents :=
      (ports.filter (fun p => decide (p.port ∉ lastOpened))).map
        (fun p => { port := p.port, hostname := p.url }),
    closeEvents := lastOpened.filter (fun q => decide (q ∉ ports.map PortDTO.port)),
    lastOpenedPorts := (ports.map PortDTO.port).dedup }

theorem open_events_count (q : Nat) (lastOpened : List Nat) :
    ∀ ports : List PortDTO, (ports.map PortDTO.port).Nodup →
      (((ports.filter (fun p => decide (p.port ∉ lastOpened))).map
          (fun p => PortInfo.mk p.port p.url)).filter
        (fun o => decide (o.port = q))).length =
        if q ∈ ports.map PortDTO.port ∧ q ∉ lastOpened then 1 else 0 := by
  intro ports
  induction ports with
  | nil => intro _; simp
  | cons p rest ih =>
      intro hnd
      rw [List.map_cons, List.nodup_cons] at hnd
      have ihr := ih hnd.2
      by_cases hpl : p.port ∈ lastOpened
      · rw [List.filter_cons_of_neg (by simp [hpl])]
        rw [ihr]
        by_cases hq : q = p.port
        · subst hq
          simp [hpl]
        · simp [List.mem_cons, hq]
      · rw [List.filter_cons_of_pos (by simp [hpl])]
        rw [List.map_cons]
        by_cases hq : p.port = q
        · rw [List.filter_cons_of_pos (by simp [hq])]
          rw [List.length_cons, ihr]
          have hqr : q ∉ List.map PortDTO.port rest := hq ▸ hnd.1
          have hql : q ∉ lastOpened := hq ▸ hpl
          have h1 : ¬ (q ∈ List.map PortDTO.port rest ∧ q ∉ lastOpened) :=
            fun hc => hqr hc.1
          have h2 : q ∈ List.map PortDTO.port (p :: rest) ∧ q ∉ lastOpened :=
            ⟨by simp [hq.symm], hql⟩
          rw [if_neg h1, if_pos h2]
        · rw [List.filter_cons_of_neg (by simp [hq])]
          rw [ihr]
          have : (q = p.port) = False := by
            simp
            exact fun hqq => hq hqq.symm
          simp [List.mem_cons, this]

/-- C8: for one ports-updated batch against the previous snapshot S (a set of
port numbers) and a duplicate-free batch with port set S', exactly one open
event fires for each port of S' \ S, exactly one close event fires for each
port of S \ S', no event fires for ports present in both or in neither, and
the stored snapshot afterwards is exactly S'. -/
theorem ports_delta (lastOpened : List Nat) (ports : List PortDTO)
    (hlast : lastOpened.Nodup) (hports : (ports.map PortDTO.port).Nodup) :
    (∀ q, q ∈ ports.map PortDTO.port → q ∉ lastOpened →
        ((portsUpdated lastOpened ports).openEvents.filter
          (fun o => decide (o.port = q))).length = 1)
    ∧ (∀ q, q ∈ lastOpened → q ∉ ports.map PortDTO.port →
        (portsUpdated lastOpened ports).closeEvents.count q = 1)
    ∧ (∀ q, q ∈ lastOpened → q ∈ ports.map PortDTO.port →
        ((portsUpdated lastOpened ports).openEvents.filter
          (fun o => decide (o.port = q))).length = 0
        ∧ (portsUpdated lastOpened ports).closeEvents.count q = 0)
    ∧ (∀ q, q ∉ ports.map PortDTO.port →
        ((portsUpdated lastOpened ports).openEvents.filter
          (fun o => decide (o.port = q))).length = 0)
    ∧ (∀ q, q ∉ lastOpened →
        (portsUpdated lastOpened ports).closeEvents.count q = 0)
    ∧ (∀ q, q ∈ (portsUpdated lastOpened ports).lastOpenedPorts ↔
        q ∈ ports.map PortDTO.port) := by
  have hopen := fun q => open_events_count q lastOpened ports hports
  refine ⟨?_, ?_, ?_, ?_, ?_, ?_⟩
  · intro q hq hql
    rw [show (portsUpdated lastOpened ports).openEvents =
        (ports.filter (fun p => decide (p.port ∉ lastOpened))).map
          (fun p => PortInfo.mk p.port p.url) from rfl, hopen q]
    simp [hq, hql]
  · intro q hq hqp
    have hcf : List.count q (lastOpened.filter
        (fun x => decide (x ∉ ports.map PortDTO.port))) = List.count q lastOpened :=
      List.count_filter (by simp [hqp])
    rw [show (portsUpdated lastOpened ports).closeEvents =
        lastOpened.filter (fun x => decide (x ∉ ports.map PortDTO.port)) from rfl]
    rw [hcf]
    exact List.count_eq_one_of_mem hlast hq
  · intro q hql hqp
    constructor
    · rw [show (portsUpdated lastOpened ports).openEvents =
          (ports.filter (fun p => decide (p.port ∉ lastOpened))).map
            (fun p => PortInfo.mk p.port p.url) from rfl, hopen q]
      simp [hql]
    · rw [show (portsUpdated lastOpened ports).closeEvents =
          lastOpened.filter (fun x => decide (x ∉ ports.map PortDTO.port)) from rfl]
      rw [List.count_eq_zero]
      intro hmem
      exact (by simpa using (List.mem_filter.mp hmem).2 : q ∉ ports.map PortDTO.port) hqp
  · intro q hq
    rw [show (portsUpdated lastOpened ports).openEvents =
        (ports.filter (fun p => decide (p.port ∉ lastOpened))).map
          (fun p => PortInfo.mk p.port p.url) from rfl, hopen q]
    simp [hq]
  · intro q hql
    rw [show (portsUpdated lastOpened ports).closeEvents =
        lastOpened.filter (fun x => decide (x ∉ ports.map PortDTO.port)) from rfl]
    rw [List.count_eq_zero]
    intro hmem
    exact hql (List.mem_filter.mp hmem).1
  · intro q
    rw [show (portsUpdated lastOpened ports).lastOpenedPorts =
        (ports.map PortDTO.port).dedup from rfl]
    exact List.mem_dedup

/-- C8 witness: previous snapshot {3000, 8080} and batch {8080, 9090} yield
exactly one open event for 9090, one close event for 3000, no event for 8080,
and the snapshot becomes {8080, 9090}. -/
theorem ports_delta_witness :
    ((portsUpdated [3000, 8080]
        [{ port := 8080, url := "u8" }, { port := 9090, url := "u9" }]).openEvents.filter
      (fun o => decide (o.port = 9090))).length = 1
    ∧ (portsUpdated [3000, 8080]
        [{ port := 8080, url := "u8" }, { port := 9090, url := "u9" }]).closeEvents.count 3000 = 1
    ∧ ((portsUpdated [3000, 8080]
        [{ port := 8080, url := "u8" }, { port := 9090, url := "u9" }]).openEvents.filter
      (fun o => decide (o.port = 8080))).length = 0
    ∧ (portsUpdated [3000, 8080]
        [{ port := 8080, url := "u8" }, { port := 9090, url := "u9" }]).closeEvents.count 8080 = 0 := by
  have h := ports_delta [3000, 8080]
    [{ port := 8080, url := "u8" }, { port := 9090, url := "u9" }]
    (by decide) (by decide)
  refine ⟨h.1 9090 (by decide) (by decide), h.2.1 3000 (by decide) (by decide), ?_, ?_⟩
  · exact (h.2.2.1 8080 (by decide) (by decide)).1
  · exact (h.2.2.1 8080 (by decide) (by decide)).2

/-! `ShellInstance` disposal (src/setup.ts lines 298-304). The
`onWillDispose` registration mechanism belongs to the `Disposable` base class
(src/utils/disposable.ts, not under src/); modelled from the spec: the
registered teardown hook runs when the handle is disposed. The hook body is
embedded from the source. -/

/-- The dispose hook of `ShellInstance`: request remote closure of the shell
and swallow any error from the close request (`try { await close } catch (e)
{ /* ignore */ }`). `closeResult` is the outcome of the remote close request;
the returned pair is the effect trace and the hook's own outcome. -/
def shellCloseOnDispose (closeResult : Except String Unit) :
    List Effect × Except String Unit :=
  ([Effect.closeShell],
    match closeResult with
    | Except.ok _ => Except.ok ()
    | Except.error _ => Except.ok ())

/-- C9: disposing a shell handle requests remote closure of its shell, and
any error raised by the close request is swallowed — the hook always
completes without surfacing the remote failure. -/
theorem dispose_swallows_close_error (closeResult : Except String Unit) :
    (shellCloseOnDispose closeResult).fst = [Effect.closeShell]
    ∧ (shellCloseOnDispose closeResult).snd = Except.ok () := by
  cases closeResult <;> exact ⟨rfl, rfl⟩

end CsbSdk
